import Mathlib

/-!
Verification of the key_vaulter credential manager (Rust) against its
specification, via a shallow embedding in Lean 4.

The embedding models:
* `KeyManager` (src/key_manager.rs): scalar secrets stored in the OS keyring
  (modelled as `SecretStore`), optional environment-variable override
  (the `use_env_credentials` cfg feature is the `useEnv` flag), console
  input as a list of pending lines.
* `StructKeyManager<T>` (src/struct_key_manager.rs): a record type `T` is
  reflected as a `Schema` (field names with default primitive values, in the
  order the canonical encoding produces); values are `RecordV`.  The
  serde_json encoding of a flat record and its parser are modelled faithfully
  for the primitive fragment (strings with JSON escaping, signed decimal
  integers, `true`/`false`).
* Errors mirror the `keyring::Error` enum at the granularity a caller can
  pattern-match: `noEntry` and `platformFailure` (whose payload models the
  Display text of the boxed inner error).
-/

namespace KeyVaulter

/-! ### Primitive values and records -/

/-- A primitive JSON value as used for flat record fields. -/
inductive Prim where
  | s (v : String)
  | i (v : Int)
  | b (v : Bool)
deriving DecidableEq

/-- A record value: fields in the order the canonical encoding produces. -/
abbrev RecordV := List (String × Prim)

/-- One field of a record type: its serialized name and the default
instance's value (which also carries the field's primitive kind). -/
structure FieldSchema where
  name : String
  dflt : Prim
deriving DecidableEq

/-- The reflection of a record type `T`: fields in encoding order. -/
abbrev Schema := List FieldSchema

/-- Two primitives have the same kind (string/integer/boolean). -/
def kindEq : Prim → Prim → Bool
  | .s _, .s _ => true
  | .i _, .i _ => true
  | .b _, .b _ => true
  | _, _ => false

/-! ### Console and string utilities -/

/-- Pending console input, one entry per line (already without the newline).
`read_line` at end of input yields an empty string, as Rust's `read_line`
does at EOF. -/
abbrev Console := List String

/-- Model of `io::stdin().read_line`: pop the next pending line. -/
def readLine : Console → String × Console
  | [] => ("", [])
  | l :: ls => (l, ls)

/-- Model of Rust `str::trim`: drop whitespace from both ends. -/
def rustTrim (s : String) : String :=
  ⟨(((s.data.dropWhile Char.isWhitespace).reverse.dropWhile Char.isWhitespace).reverse)⟩

/-- Model of `str::to_lowercase` on the ASCII range (the inputs compared
against are the ASCII literals `true` / `false`). -/
def lowerAscii (s : String) : String := ⟨s.data.map Char.toLower⟩

/-- Model of `str::parse::<i64>`: optional sign, one or more ASCII digits,
result within the `i64` range. -/
def parseI64 (s : String) : Option Int :=
  let (sign, digits) : Int × List Char :=
    match s.data with
    | '+' :: rest => (1, rest)
    | '-' :: rest => (-1, rest)
    | rest => (1, rest)
  if digits.isEmpty then none
  else if digits.all Char.isDigit then
    let n : Nat := digits.foldl (fun a c => a * 10 + (c.toNat - 48)) 0
    let v : Int := sign * n
    if -(2 ^ 63) ≤ v ∧ v < 2 ^ 63 then some v else none
  else none

/-! ### The secret store (keyring collaborator) -/

/-- Errors visible through `keyring::Result`, at the granularity of the
`keyring::Error` variants the code produces: `NoEntry` for an absent
credential, `PlatformFailure` with the boxed error's display text. -/
inductive KError where
  | noEntry
  | platformFailure (msg : String)
deriving DecidableEq

/-- Whether an error is the `PlatformFailure` variant. -/
def KError.isPlatformFailure : KError → Bool
  | .platformFailure _ => true
  | _ => false

/-- The platform credential store: entries keyed by (service, key name);
`failing` models a platform in which every operation fails. -/
structure SecretStore where
  entries : List ((String × String) × String)
  failing : Bool
deriving DecidableEq

/-- `Entry::get_password`. -/
def SecretStore.get (st : SecretStore) (sys key : String) : Except KError String :=
  if st.failing then .error (.platformFailure "platform failure")
  else
    match st.entries.lookup (sys, key) with
    | some v => .ok v
    | none => .error .noEntry

/-- `Entry::set_password`: overwrite any previous value. -/
def SecretStore.set (st : SecretStore) (sys key value : String) :
    Except KError SecretStore :=
  if st.failing then .error (.platformFailure "platform failure")
  else .ok { st with entries := ((sys, key), value) :: st.entries.filter (fun e => !(e.1 == (sys, key))) }

/-- `Entry::delete_credential`: deleting an absent credential fails. -/
def SecretStore.del (st : SecretStore) (sys key : String) :
    Except KError SecretStore :=
  if st.failing then .error (.platformFailure "platform failure")
  else
    match st.entries.lookup (sys, key) with
    | some _ => .ok { st with entries := st.entries.filter (fun e => !(e.1 == (sys, key))) }
    | none => .error .noEntry

/-! ### KeyManager (src/key_manager.rs) -/

/-- The scalar manager: identity plus cached last value. -/
structure KeyManager where
  system_name : String
  key_name : String
  key_value : Option String
deriving DecidableEq

/-- `KeyManager::new`. -/
def KeyManager.new (system_name key_name : String) : KeyManager :=
  { system_name := system_name, key_name := key_name, key_value := none }

/-- `KeyManager::read_key`.  `useEnv` reflects the `use_env_credentials`
cfg feature; `env` is the process environment.  Reading never changes the
store, so only the result and updated manager are returned. -/
def KeyManager.read_key (useEnv : Bool) (env : List (String × String))
    (m : KeyManager) (st : SecretStore) : Except KError String × KeyManager :=
  match (if useEnv then env.lookup m.key_name else none) with
  | some v => (.ok v, { m with key_value := some v })
  | none =>
    match st.get m.system_name m.key_name with
    | .ok password => (.ok password, { m with key_value := some password })
    | .error e => (.error e, m)

/-- `KeyManager::store_key`. -/
def KeyManager.store_key (m : KeyManager) (st : SecretStore) (value : String) :
    Except KError Unit × KeyManager × SecretStore :=
  match st.set m.system_name m.key_name value with
  | .ok st2 => (.ok (), { m with key_value := some value }, st2)
  | .error e => (.error e, m, st)

/-- `KeyManager::delete_key`. -/
def KeyManager.delete_key (m : KeyManager) (st : SecretStore) :
    Except KError Unit × KeyManager × SecretStore :=
  match st.del m.system_name m.key_name with
  | .ok st2 => (.ok (), { m with key_value := none }, st2)
  | .error e => (.error e, m, st)

/-- The prompt line `request_key` prints for a scalar key. -/
def scalarPrompt (key_name : String) : String :=
  "Please enter the value for key " ++ key_name ++ ":"

/-- `KeyManager::request_key`: prompt, read one line, trim, store, return.
The last component collects the prompt lines printed. -/
def KeyManager.request_key (m : KeyManager) (st : SecretStore) (con : Console) :
    Except KError String × KeyManager × SecretStore × Console × List String :=
  let (line, con2) := readLine con
  let input := rustTrim line
  match m.store_key st input with
  | (.ok _, m2, st2) => (.ok input, m2, st2, con2, [scalarPrompt m.key_name])
  | (.error e, m2, st2) => (.error e, m2, st2, con2, [scalarPrompt m.key_name])

/-- The notice printed when the key is not found. -/
def notFoundNotice : String := "The key was not found."

/-- `KeyManager::read_or_request_key`. -/
def KeyManager.read_or_request_key (useEnv : Bool) (env : List (String × String))
    (m : KeyManager) (st : SecretStore) (con : Console) :
    Except KError String × KeyManager × SecretStore × Console × List String :=
  match m.read_key useEnv env st with
  | (.ok v, m2) => (.ok v, m2, st, con, [])
  | (.error _, m2) =>
    let (r, m3, st2, con2, outs) := m2.request_key st con
    (r, m3, st2, con2, notFoundNotice :: outs)

/-! ### Canonical text encoding (serde_json, flat-record fragment)

`serde_json::to_string` on a flat struct writes
`{"name":value,...}` with fields in the order the encoding produces,
strings JSON-escaped, integers in signed decimal, booleans as
`true`/`false`.  `serde_json::from_str` for such a struct parses a JSON
object and extracts each declared field by name, requiring the primitive
kind to match. -/

/-- The character `{`. -/
def lbrace : Char := Char.ofNat 123

/-- The character `}`. -/
def rbrace : Char := Char.ofNat 125

/-- Lowercase hexadecimal digit, as serde_json emits in `\u00XX` escapes. -/
def hexChar (n : Nat) : Char :=
  if n < 10 then Char.ofNat (48 + n) else Char.ofNat (87 + n)

/-- serde_json's escaping of one character inside a JSON string: quote and
backslash escaped, the five short control escapes, `\u00XX` for the other
control characters, everything else verbatim. -/
def escapeChar (c : Char) : List Char :=
  if c = '"' then ['\\', '"']
  else if c = '\\' then ['\\', '\\']
  else if c = Char.ofNat 8 then ['\\', 'b']
  else if c = '\t' then ['\\', 't']
  else if c = '\n' then ['\\', 'n']
  else if c = Char.ofNat 12 then ['\\', 'f']
  else if c = '\r' then ['\\', 'r']
  else if c.toNat < 32 then
    ['\\', 'u', '0', '0', hexChar (c.toNat / 16), hexChar (c.toNat % 16)]
  else [c]

/-- Escape every character of a list. -/
def escapeList : List Char → List Char
  | [] => []
  | c :: cs => escapeChar c ++ escapeList cs

/-- A JSON string literal: quote, escaped body, quote. -/
def renderString (s : String) : List Char :=
  '"' :: (escapeList s.data ++ ['"'])

/-- Decimal digit character. -/
def decChar (d : Nat) : Char := Char.ofNat (48 + d)

/-- Digits of `n` in order, most significant first; `fuel` bounds the
number of divisions (any `fuel ≥ n` is enough). -/
def renderNatAux : Nat → Nat → List Char
  | 0, _ => []
  | fuel + 1, n =>
    if n = 0 then [] else renderNatAux fuel (n / 10) ++ [decChar (n % 10)]

/-- Standard decimal rendering of a natural number. -/
def renderNat (n : Nat) : List Char :=
  if n = 0 then ['0'] else renderNatAux n n

/-- Signed decimal rendering of an integer, as serde_json writes `i64`. -/
def renderInt (i : Int) : List Char :=
  if i < 0 then '-' :: renderNat (-i).toNat else renderNat i.toNat

/-- Rendering of one primitive value. -/
def renderPrim : Prim → List Char
  | .s v => renderString v
  | .i v => renderInt v
  | .b true => ['t', 'r', 'u', 'e']
  | .b false => ['f', 'a', 'l', 's', 'e']

/-- Rendering of one field: `"name":value`. -/
def renderField (f : String × Prim) : List Char :=
  renderString f.1 ++ ':' :: renderPrim f.2

/-- Comma-separated rendering of the fields. -/
def renderFields : RecordV → List Char
  | [] => []
  | [f] => renderField f
  | f :: fs => renderField f ++ ',' :: renderFields fs

/-- `serde_json::to_string` of a flat record. -/
def encodeT (r : RecordV) : String :=
  ⟨lbrace :: (renderFields r ++ [rbrace])⟩

/-- Value of a hexadecimal digit character. -/
def hexVal (c : Char) : Option Nat :=
  if '0' ≤ c ∧ c ≤ '9' then some (c.toNat - 48)
  else if 'a' ≤ c ∧ c ≤ 'f' then some (c.toNat - 87)
  else if 'A' ≤ c ∧ c ≤ 'F' then some (c.toNat - 55)
  else none

/-- Decoding of a single-character JSON escape. -/
def escDecode (e : Char) : Option Char :=
  if e = '"' then some '"'
  else if e = '\\' then some '\\'
  else if e = '/' then some '/'
  else if e = 'b' then some (Char.ofNat 8)
  else if e = 'f' then some (Char.ofNat 12)
  else if e = 'n' then some '\n'
  else if e = 'r' then some '\r'
  else if e = 't' then some '\t'
  else none

/-- Parse the body of a JSON string up to the closing quote, `acc` holding
the characters read so far in reverse.  Surrogate-pair escapes are not
modelled (no claim involves them); unescaped control characters are an
error, as in serde_json. -/
def parseStringBody : List Char → List Char → Option (String × List Char)
  | [], _ => none
  | c :: rest, acc =>
    if c = '"' then some (⟨acc.reverse⟩, rest)
    else if c = '\\' then
      match rest with
      | [] => none
      | e :: rest2 =>
        if e = 'u' then
          match rest2 with
          | h1 :: h2 :: h3 :: h4 :: rest3 =>
            match hexVal h1, hexVal h2, hexVal h3, hexVal h4 with
            | some a, some b, some c2, some d =>
              let code := ((a * 16 + b) * 16 + c2) * 16 + d
              if code < 55296 ∨ (57343 < code ∧ code < 1114112) then
                parseStringBody rest3 (Char.ofNat code :: acc)
              else none
            | _, _, _, _ => none
          | _ => none
        else
          match escDecode e with
          | some ch => parseStringBody rest2 (ch :: acc)
          | none => none
    else if c.toNat < 32 then none
    else parseStringBody rest (c :: acc)

/-- Consume a maximal run of decimal digits, accumulating their value. -/
def parseDigits : List Char → Nat → Nat × List Char
  | [], acc => (acc, [])
  | c :: rest, acc =>
    if c.isDigit then parseDigits rest (acc * 10 + (c.toNat - 48))
    else (acc, c :: rest)

/-- Parse one primitive JSON value (string, integer or boolean literal),
deciding the kind from the first character as serde_json does. -/
def parsePrim (l : List Char) : Option (Prim × List Char) :=
  match l with
  | [] => none
  | c :: rest =>
    if c = '"' then
      match parseStringBody rest [] with
      | some (s, r) => some (.s s, r)
      | none => none
    else if c = '-' then
      match rest with
      | c2 :: rest2 =>
        if c2.isDigit then
          let (n, r) := parseDigits rest2 (c2.toNat - 48)
          some (.i (-(n : Int)), r)
        else none
      | [] => none
    else if c.isDigit then
      let (n, r) := parseDigits rest (c.toNat - 48)
      some (.i (n : Int), r)
    else if l.take 4 = ['t', 'r', 'u', 'e'] then some (.b true, l.drop 4)
    else if l.take 5 = ['f', 'a', 'l', 's', 'e'] then some (.b false, l.drop 5)
    else none

/-- Skip JSON whitespace (space, tab, carriage return, newline). -/
def skipWS (l : List Char) : List Char := l.dropWhile Char.isWhitespace

/-- Parse `"name":value` pairs separated by commas, up to and including the
closing brace.  `fuel` bounds the number of fields. -/
def parseFields : Nat → List Char → Option (RecordV × List Char)
  | 0, _ => none
  | fuel + 1, l =>
    match skipWS l with
    | [] => none
    | c :: rest =>
      if c = '"' then
        match parseStringBody rest [] with
        | none => none
        | some (name, r1) =>
          match skipWS r1 with
          | [] => none
          | c2 :: r2 =>
            if c2 = ':' then
              match parsePrim (skipWS r2) with
              | none => none
              | some (v, r3) =>
                match skipWS r3 with
                | [] => none
                | sep :: r4 =>
                  if sep = ',' then
                    match parseFields fuel r4 with
                    | some (fs, r5) => some ((name, v) :: fs, r5)
                    | none => none
                  else if sep = rbrace then some ([(name, v)], r4)
                  else none
            else none
      else none

/-- Parse a whole JSON object of primitive fields (the texts produced by
`encodeT`; other JSON shapes fail, as `from_str` into a flat struct does). -/
def parseRecordText (s : String) : Option RecordV :=
  match skipWS s.data with
  | c :: rest =>
    if c = lbrace then
      match skipWS rest with
      | c2 :: r2 =>
        if c2 = rbrace then
          if (skipWS r2).isEmpty then some [] else none
        else
          match parseFields (rest.length + 1) rest with
          | some (fs, r) => if (skipWS r).isEmpty then some fs else none
          | none => none
      | [] => none
    else none
  | [] => none

/-- Coerce one parsed primitive to the kind a field's default declares,
as the derived `Deserialize` visitor does (mismatched kinds error). -/
def coerceKind (dflt v : Prim) : Option Prim :=
  match dflt, v with
  | .s _, .s x => some (.s x)
  | .i _, .i x => some (.i x)
  | .b _, .b x => some (.b x)
  | _, _ => none

/-- Extraction of one declared field from the parsed key-value pairs, as
the derived struct visitor does: the field must be present and of the
declared kind. -/
def extractField (kvs : RecordV) (f : FieldSchema) : Option (String × Prim) :=
  match kvs.lookup f.name with
  | some v =>
    match coerceKind f.dflt v with
    | some v2 => some (f.name, v2)
    | none => none
  | none => none

/-- Extraction of every declared field, failing if any single one fails. -/
def extractFields (kvs : RecordV) : Schema → Option RecordV
  | [] => some []
  | f :: rest =>
    match extractField kvs f with
    | some p =>
      match extractFields kvs rest with
      | some ps => some (p :: ps)
      | none => none
    | none => none

/-- `serde_json::from_str` into the record type described by `sch`: parse
the JSON object, then extract each declared field by name with its kind. -/
def decodeT (sch : Schema) (s : String) : Option RecordV :=
  match parseRecordText s with
  | none => none
  | some kvs => extractFields kvs sch

/-! ### StructKeyManager (src/struct_key_manager.rs) -/

/-- The generic manager wraps exactly one scalar manager; the record type
parameter `T` is represented by the `Schema` argument of each operation. -/
structure StructKeyManager where
  key_manager : KeyManager
deriving DecidableEq

/-- `StructKeyManager::new`. -/
def StructKeyManager.new (system_name key_name : String) : StructKeyManager :=
  ⟨KeyManager.new system_name key_name⟩

/-- The display text serde_json's error turns into when `read_key` wraps it
in `keyring::Error::PlatformFailure`. -/
def serdeErrMsg : String := "serde_json error"

/-- `StructKeyManager::read_key`: read the stored text, then deserialize;
a deserialization failure is wrapped in `PlatformFailure` by `map_err`. -/
def StructKeyManager.read_key (useEnv : Bool) (env : List (String × String))
    (sch : Schema) (m : StructKeyManager) (st : SecretStore) :
    Except KError RecordV × StructKeyManager :=
  match m.key_manager.read_key useEnv env st with
  | (.ok json, km) =>
    match decodeT sch json with
    | some v => (.ok v, ⟨km⟩)
    | none => (.error (.platformFailure serdeErrMsg), ⟨km⟩)
  | (.error e, km) => (.error e, ⟨km⟩)

/-- `StructKeyManager::store_key`: serialize, then store through the
scalar manager. -/
def StructKeyManager.store_key (sch : Schema) (m : StructKeyManager)
    (st : SecretStore) (value : RecordV) :
    Except KError Unit × StructKeyManager × SecretStore :=
  let _ := sch
  match m.key_manager.store_key st (encodeT value) with
  | (r, km, st2) => (r, ⟨km⟩, st2)

/-- `StructKeyManager::delete_key`. -/
def StructKeyManager.delete_key (m : StructKeyManager) (st : SecretStore) :
    Except KError Unit × StructKeyManager × SecretStore :=
  match m.key_manager.delete_key st with
  | (r, km, st2) => (r, ⟨km⟩, st2)

/-- The prompt line printed for one field during elicitation. -/
def fieldPrompt (name : String) : String :=
  "Please enter the value for field " ++ name ++ ":"

/-- Coercion of one line of input according to the kind of the field's
default value: numbers via `parse::<i64>`, booleans via lowercased
`true`/`false`, strings verbatim.  `none` is the coercion failure the
loop body reports before `continue`. -/
def coerceField (dflt : Prim) (input : String) : Option Prim :=
  match dflt with
  | .i _ =>
    match parseI64 input with
    | some num => some (.i num)
    | none => none
  | .b _ =>
    if lowerAscii input = "true" then some (.b true)
    else if lowerAscii input = "false" then some (.b false)
    else none
  | .s _ => some (.s input)

/-- The field loop of `StructKeyManager::request_key`: for each field of
the default instance's encoded form, in order, prompt, read one line, trim,
coerce; on coercion failure the loop's `continue` moves on to the next
field, leaving the default value in place.  Returns the resulting field
map, the remaining console input, and the prompt lines printed. -/
def elicitFields : Schema → Console → RecordV × Console × List String
  | [], con => ([], con, [])
  | f :: rest, con =>
    let (line, con2) := readLine con
    let input := rustTrim line
    let value :=
      match coerceField f.dflt input with
      | some v => v
      | none => f.dflt
    let (vals, con3, outs) := elicitFields rest con2
    ((f.name, value) :: vals, con3, fieldPrompt f.name :: outs)

/-- `StructKeyManager::request_key`: elicit every field of the default
instance's encoded form, rebuild the record, store it, return it.  (The
final `from_value` step always succeeds in the model because elicitation
preserves each field's primitive kind, as it does in the source for
record types whose fields hold the full primitive range.) -/
def StructKeyManager.request_key (sch : Schema) (m : StructKeyManager)
    (st : SecretStore) (con : Console) :
    Except KError RecordV × StructKeyManager × SecretStore × Console × List String :=
  let (vals, con2, outs) := elicitFields sch con
  match StructKeyManager.store_key sch m st vals with
  | (.ok _, m2, st2) => (.ok vals, m2, st2, con2, outs)
  | (.error e, m2, st2) => (.error e, m2, st2, con2, outs)

/-- `StructKeyManager::read_or_request_key`. -/
def StructKeyManager.read_or_request_key (useEnv : Bool)
    (env : List (String × String)) (sch : Schema) (m : StructKeyManager)
    (st : SecretStore) (con : Console) :
    Except KError RecordV × StructKeyManager × SecretStore × Console × List String :=
  match StructKeyManager.read_key useEnv env sch m st with
  | (.ok v, m2) => (.ok v, m2, st, con, [])
  | (.error _, m2) =>
    let (r, m3, st2, con2, outs) := StructKeyManager.request_key sch m2 st con
    (r, m3, st2, con2, notFoundNotice :: outs)

/-! ### Correctness of the encoding round trip -/

/-- A record value belongs to the record type described by `sch`: same
field names in the same order, each value of the declared primitive kind. -/
def conforms (sch : Schema) (r : RecordV) : Prop :=
  List.Forall₂ (fun f p => p.1 = f.name ∧ kindEq f.dflt p.2 = true) sch r

theorem string_eta (s : String) : (⟨s.data⟩ : String) = s := rfl

theorem skipWS_cons_of_not_ws {c : Char} (l : List Char)
    (h : c.isWhitespace = false) : skipWS (c :: l) = c :: l := by
  simp [skipWS, List.dropWhile, h]

theorem hexVal_hexChar : ∀ n, n < 16 → hexVal (hexChar n) = some n := by decide

theorem decChar_isDigit : ∀ d, d < 10 → (decChar d).isDigit = true := by decide

theorem decChar_toNat : ∀ d, d < 10 → (decChar d).toNat - 48 = d := by decide

theorem decChar_not_ws : ∀ d, d < 10 → (decChar d).isWhitespace = false := by
  decide

theorem decChar_ne_quote : ∀ d, d < 10 → decChar d ≠ '"' := by decide

theorem decChar_ne_minus : ∀ d, d < 10 → decChar d ≠ '-' := by decide

theorem parseStringBody_escapeChar (c : Char) (t acc : List Char) :
    parseStringBody (escapeChar c ++ t) acc = parseStringBody t (c :: acc) := by
  by_cases h1 : c = '"'
  · simp only [escapeChar, h1, if_pos rfl, List.cons_append, List.nil_append]
    rw [parseStringBody.eq_def]
    simp [escDecode]
  by_cases h2 : c = '\\'
  · simp only [escapeChar, h2, if_neg (h2 ▸ h1), if_pos rfl, List.cons_append,
      List.nil_append]
    rw [parseStringBody.eq_def]
    simp [escDecode]
  by_cases h3 : c = Char.ofNat 8
  · have hesc : escapeChar c = ['\\', 'b'] := by
      simp [escapeChar, h1, h2, h3]
    rw [hesc, h3]
    rw [show ((['\\', 'b'] : List Char) ++ t) = '\\' :: 'b' :: t from rfl,
      parseStringBody.eq_def]
    simp [escDecode]
  by_cases h4 : c = '\t'
  · have hesc : escapeChar c = ['\\', 't'] := by
      simp [escapeChar, h1, h2, h3, h4]
    rw [hesc, h4]
    rw [show ((['\\', 't'] : List Char) ++ t) = '\\' :: 't' :: t from rfl,
      parseStringBody.eq_def]
    simp [escDecode]
  by_cases h5 : c = '\n'
  · have hesc : escapeChar c = ['\\', 'n'] := by
      simp [escapeChar, h1, h2, h3, h4, h5]
    rw [hesc, h5]
    rw [show ((['\\', 'n'] : List Char) ++ t) = '\\' :: 'n' :: t from rfl,
      parseStringBody.eq_def]
    simp [escDecode]
  by_cases h6 : c = Char.ofNat 12
  · have hesc : escapeChar c = ['\\', 'f'] := by
      simp [escapeChar, h1, h2, h3, h4, h5, h6]
    rw [hesc, h6]
    rw [show ((['\\', 'f'] : List Char) ++ t) = '\\' :: 'f' :: t from rfl,
      parseStringBody.eq_def]
    simp [escDecode]
  by_cases h7 : c = '\r'
  · have hesc : escapeChar c = ['\\', 'r'] := by
      simp [escapeChar, h1, h2, h3, h4, h5, h6, h7]
    rw [hesc, h7]
    rw [show ((['\\', 'r'] : List Char) ++ t) = '\\' :: 'r' :: t from rfl,
      parseStringBody.eq_def]
    simp [escDecode]
  by_cases h8 : c.toNat < 32
  · have hdiv : c.toNat / 16 < 16 := by omega
    have hmod : c.toNat % 16 < 16 := Nat.mod_lt _ (by norm_num)
    have h0 : hexVal '0' = some 0 := by decide
    have hcode :
        ((0 * 16 + 0) * 16 + c.toNat / 16) * 16 + c.toNat % 16 = c.toNat := by
      have := Nat.div_add_mod c.toNat 16
      omega
    have hv : c.toNat < 55296 := by omega
    have hesc : escapeChar c =
        ['\\', 'u', '0', '0', hexChar (c.toNat / 16), hexChar (c.toNat % 16)] := by
      simp [escapeChar, h1, h2, h3, h4, h5, h6, h7, h8]
    rw [hesc]
    rw [show (('\\' :: 'u' :: '0' :: '0' :: hexChar (c.toNat / 16) ::
        hexChar (c.toNat % 16) :: []) ++ t) =
        '\\' :: 'u' :: '0' :: '0' :: hexChar (c.toNat / 16) ::
        hexChar (c.toNat % 16) :: t from rfl, parseStringBody.eq_def]
    simp only [h0, hexVal_hexChar _ hdiv, hexVal_hexChar _ hmod]
    have hcode2 : c.toNat / 16 * 16 + c.toNat % 16 = c.toNat := by omega
    simp [hcode, hcode2, hv, Char.ofNat_toNat]
  · have hesc : escapeChar c = [c] := by
      simp [escapeChar, h1, h2, h3, h4, h5, h6, h7, h8]
    rw [hesc]
    rw [show (([c] : List Char) ++ t) = c :: t from rfl, parseStringBody.eq_def]
    simp [h1, h2, h8]

theorem parseStringBody_escapeList (s : List Char) :
    ∀ (t acc : List Char),
      parseStringBody (escapeList s ++ t) acc =
        parseStringBody t (s.reverse ++ acc) := by
  induction s with
  | nil => intro t acc; simp [escapeList]
  | cons c cs ih =>
    intro t acc
    have : escapeList (c :: cs) ++ t = escapeChar c ++ (escapeList cs ++ t) := by
      simp [escapeList]
    rw [this, parseStringBody_escapeChar, ih]
    simp

theorem parseStringBody_renderString (s : String) (rest : List Char) :
    parseStringBody (escapeList s.data ++ '"' :: rest) [] = some (s, rest) := by
  rw [parseStringBody_escapeList, parseStringBody.eq_def]
  simp [string_eta]

/-- The tail continues with a non-digit (or nothing), so a maximal digit
run ends exactly there. -/
def headNotDigit : List Char → Prop
  | [] => True
  | c :: _ => c.isDigit = false

theorem renderNatAux_mem :
    ∀ fuel n c, c ∈ renderNatAux fuel n → ∃ d, d < 10 ∧ c = decChar d := by
  intro fuel
  induction fuel with
  | zero => intro n c h; simp [renderNatAux] at h
  | succ fuel ih =>
    intro n c h
    rw [renderNatAux.eq_def] at h
    by_cases hn : n = 0
    · simp [hn] at h
    · simp only [hn, if_false, ite_false, List.mem_append, List.mem_singleton] at h
      rcases h with h | h
      · exact ih _ _ h
      · exact ⟨n % 10, Nat.mod_lt _ (by norm_num), h⟩

theorem renderNatAux_eq_digits :
    ∀ fuel n, n ≤ fuel →
      renderNatAux fuel n = ((Nat.digits 10 n).map decChar).reverse := by
  intro fuel
  induction fuel with
  | zero =>
    intro n h
    interval_cases n
    simp [renderNatAux]
  | succ fuel ih =>
    intro n h
    by_cases hn : n = 0
    · simp [renderNatAux, hn]
    · have hd := Nat.digits_def' (by norm_num : (1 : ℕ) < 10)
        (Nat.pos_of_ne_zero hn)
      rw [renderNatAux.eq_def]
      simp only [hn, if_false, ite_false, hd, List.map_cons, List.reverse_cons]
      rw [ih (n / 10) (by omega)]

theorem renderNat_all_digits (n : Nat) :
    ∀ c ∈ renderNat n, ∃ d, d < 10 ∧ c = decChar d := by
  intro c hc
  unfold renderNat at hc
  by_cases hn : n = 0
  · simp [hn] at hc
    exact ⟨0, by norm_num, by rw [hc]; rfl⟩
  · rw [if_neg hn] at hc
    exact renderNatAux_mem n n c hc

theorem renderNat_ne_nil (n : Nat) : renderNat n ≠ [] := by
  unfold renderNat
  by_cases hn : n = 0
  · simp [hn]
  · rw [if_neg hn, renderNatAux_eq_digits n n le_rfl]
    simp [Nat.digits_ne_nil_iff_ne_zero.mpr hn]

theorem parseDigits_append :
    ∀ (ds rest : List Char) (acc : Nat),
      (∀ c ∈ ds, c.isDigit = true) → headNotDigit rest →
      parseDigits (ds ++ rest) acc =
        (ds.foldl (fun a c => a * 10 + (c.toNat - 48)) acc, rest) := by
  intro ds
  induction ds with
  | nil =>
    intro rest acc _ hr
    cases rest with
    | nil => simp [parseDigits]
    | cons c r =>
      simp only [List.nil_append, List.foldl_nil]
      rw [parseDigits.eq_def]
      simp [show c.isDigit = false from hr]
  | cons c cs ih =>
    intro rest acc hds hr
    have hc : c.isDigit = true := hds c (by simp)
    simp only [List.cons_append, List.foldl_cons]
    rw [parseDigits.eq_def]
    simp only [hc, if_true, ite_true]
    exact ih rest _ (fun x hx => hds x (by simp [hx])) hr

theorem foldl_decChar_digits :
    ∀ (l : List Nat) (acc : Nat), (∀ d ∈ l, d < 10) →
      ((l.map decChar).reverse.foldl (fun a c => a * 10 + (c.toNat - 48)) acc) =
        acc * 10 ^ l.length + Nat.ofDigits 10 l := by
  intro l
  induction l with
  | nil => intro acc _; simp
  | cons d t ih =>
    intro acc hd
    have hdl : d < 10 := hd d (by simp)
    simp only [List.map_cons, List.reverse_cons, List.foldl_append,
      List.foldl_cons, List.foldl_nil]
    rw [ih acc (fun x hx => hd x (by simp [hx])), decChar_toNat d hdl,
      Nat.ofDigits_cons, List.length_cons, pow_succ]
    ring

theorem renderNat_foldl (n : Nat) :
    (renderNat n).foldl (fun a c => a * 10 + (c.toNat - 48)) 0 = n := by
  unfold renderNat
  by_cases hn : n = 0
  · simp [hn]
  · rw [if_neg hn, renderNatAux_eq_digits n n le_rfl, foldl_decChar_digits]
    · have := Nat.ofDigits_digits 10 n
      omega
    · intro d hd
      exact Nat.digits_lt_base (by norm_num) hd

theorem digit_char_facts (c : Char) (hc : ∃ d, d < 10 ∧ c = decChar d) :
    c.isDigit = true ∧ c.isWhitespace = false ∧ c ≠ '"' ∧ c ≠ '-' := by
  obtain ⟨d, hd, rfl⟩ := hc
  exact ⟨decChar_isDigit d hd, decChar_not_ws d hd, decChar_ne_quote d hd,
    decChar_ne_minus d hd⟩

theorem parseDigits_renderNat_tail (n : Nat) (c : Char) (cs rest : List Char)
    (hcc : renderNat n = c :: cs) (hr : headNotDigit rest) :
    parseDigits (cs ++ rest) (c.toNat - 48) = (n, rest) := by
  have hall : ∀ x ∈ cs, x.isDigit = true := by
    intro x hx
    exact (digit_char_facts x (renderNat_all_digits n x (by rw [hcc]; simp [hx]))).1
  rw [parseDigits_append cs rest _ hall hr]
  have hfold := renderNat_foldl n
  rw [hcc, List.foldl_cons] at hfold
  simpa using hfold

theorem parsePrim_renderPrim (v : Prim) (rest : List Char)
    (hr : headNotDigit rest) :
    parsePrim (renderPrim v ++ rest) = some (v, rest) := by
  cases v with
  | s str =>
    rw [show renderPrim (.s str) ++ rest =
        '"' :: (escapeList str.data ++ '"' :: rest) by
      simp [renderPrim, renderString]]
    rw [parsePrim.eq_def]
    simp [parseStringBody_renderString]
  | b bv =>
    cases bv with
    | false =>
      rw [show renderPrim (.b false) ++ rest =
          'f' :: 'a' :: 'l' :: 's' :: 'e' :: rest from rfl]
      rw [parsePrim.eq_def]
      simp
    | true =>
      rw [show renderPrim (.b true) ++ rest =
          't' :: 'r' :: 'u' :: 'e' :: rest from rfl]
      rw [parsePrim.eq_def]
      simp
  | i iv =>
    rcases lt_or_ge iv 0 with hneg | hpos
    · obtain ⟨c, cs, hcc⟩ :=
        List.exists_cons_of_ne_nil (renderNat_ne_nil (-iv).toNat)
      have hfacts := digit_char_facts c
        (renderNat_all_digits (-iv).toNat c (by rw [hcc]; simp))
      rw [show renderPrim (.i iv) ++ rest =
          '-' :: (renderNat (-iv).toNat ++ rest) by
        simp [renderPrim, renderInt, hneg]]
      rw [hcc, parsePrim.eq_def]
      simp only [List.cons_append]
      have hn : (((-iv).toNat : Int)) = -iv := Int.toNat_of_nonneg (by omega)
      simp [hfacts.1, parseDigits_renderNat_tail (-iv).toNat c cs rest hcc hr, hn]
    · obtain ⟨c, cs, hcc⟩ :=
        List.exists_cons_of_ne_nil (renderNat_ne_nil iv.toNat)
      have hfacts := digit_char_facts c
        (renderNat_all_digits iv.toNat c (by rw [hcc]; simp))
      rw [show renderPrim (.i iv) ++ rest = renderNat iv.toNat ++ rest by
        simp [renderPrim, renderInt, not_lt.mpr hpos]]
      rw [hcc, parsePrim.eq_def]
      simp only [List.cons_append]
      have hn : ((iv.toNat : Int)) = iv := Int.toNat_of_nonneg (by omega)
      simp [hfacts.1, hfacts.2.2.1, hfacts.2.2.2,
        parseDigits_renderNat_tail iv.toNat c cs rest hcc hr, hn]

theorem renderPrim_head (v : Prim) :
    ∃ c cs, renderPrim v = c :: cs ∧ c.isWhitespace = false := by
  cases v with
  | s str =>
    exact ⟨'"', escapeList str.data ++ ['"'],
      by simp [renderPrim, renderString], by decide⟩
  | b bv =>
    cases bv with
    | false => exact ⟨'f', ['a', 'l', 's', 'e'], rfl, by decide⟩
    | true => exact ⟨'t', ['r', 'u', 'e'], rfl, by decide⟩
  | i iv =>
    rcases lt_or_ge iv 0 with hneg | hpos
    · exact ⟨'-', renderNat (-iv).toNat,
        by simp [renderPrim, renderInt, hneg], by decide⟩
    · obtain ⟨c, cs, hcc⟩ :=
        List.exists_cons_of_ne_nil (renderNat_ne_nil iv.toNat)
      refine ⟨c, cs, ?_, ?_⟩
      · simp [renderPrim, renderInt, not_lt.mpr hpos, hcc]
      · exact (digit_char_facts c
          (renderNat_all_digits iv.toNat c (by rw [hcc]; simp))).2.1

theorem skipWS_renderPrim (v : Prim) (x : List Char) :
    skipWS (renderPrim v ++ x) = renderPrim v ++ x := by
  obtain ⟨c, cs, hcc, hws⟩ := renderPrim_head v
  rw [hcc]
  simp only [List.cons_append]
  exact skipWS_cons_of_not_ws _ hws

theorem renderField_append (f : String × Prim) (x : List Char) :
    renderField f ++ x =
      '"' :: (escapeList f.1.data ++ '"' :: ':' :: (renderPrim f.2 ++ x)) := by
  simp [renderField, renderString]

theorem headNotDigit_rbrace (rest : List Char) :
    headNotDigit (rbrace :: rest) := by
  show rbrace.isDigit = false
  decide

theorem headNotDigit_comma (rest : List Char) :
    headNotDigit (',' :: rest) := by
  show (',' : Char).isDigit = false
  decide

theorem parseFields_succ (fuel : Nat) (l : List Char) :
    parseFields (fuel + 1) l =
      match skipWS l with
      | [] => none
      | c :: rest =>
        if c = '"' then
          match parseStringBody rest [] with
          | none => none
          | some (name, r1) =>
            match skipWS r1 with
            | [] => none
            | c2 :: r2 =>
              if c2 = ':' then
                match parsePrim (skipWS r2) with
                | none => none
                | some (v, r3) =>
                  match skipWS r3 with
                  | [] => none
                  | sep :: r4 =>
                    if sep = ',' then
                      match parseFields fuel r4 with
                      | some (fs, r5) => some ((name, v) :: fs, r5)
                      | none => none
                    else if sep = rbrace then some ([(name, v)], r4)
                    else none
            else none
        else none := rfl

theorem parseFields_renderFields :
    ∀ (r : RecordV) (rest : List Char) (fuel : Nat),
      r ≠ [] → r.length ≤ fuel →
      parseFields fuel (renderFields r ++ rbrace :: rest) = some (r, rest) := by
  intro r
  induction r with
  | nil => intro rest fuel h _; exact absurd rfl h
  | cons f fs ih =>
    intro rest fuel _ hlen
    obtain ⟨fuel, rfl⟩ : ∃ k, fuel = k + 1 :=
      ⟨fuel - 1, by simp at hlen; omega⟩
    have hq : ¬(rbrace = ',') := by decide
    have hq2 : ¬(rbrace = '"') := by decide
    cases fs with
    | nil =>
      rw [show renderFields [f] = renderField f from rfl, renderField_append,
        parseFields_succ, skipWS_cons_of_not_ws _ (by decide)]
      simp [parseStringBody_renderString, skipWS_cons_of_not_ws, skipWS_renderPrim,
        parsePrim_renderPrim f.2 _ (headNotDigit_rbrace rest), hq,
        (by decide : ((':' : Char).isWhitespace = false)),
        (by decide : (rbrace.isWhitespace = false))]
    | cons g t =>
      rw [show renderFields (f :: g :: t) =
          renderField f ++ ',' :: renderFields (g :: t) from rfl,
        List.append_assoc, renderField_append, parseFields_succ,
        skipWS_cons_of_not_ws _ (by decide)]
      rw [show escapeList f.1.data ++
          '"' :: ':' :: (renderPrim f.2 ++ (',' :: renderFields (g :: t) ++ rbrace :: rest)) =
          escapeList f.1.data ++
          '"' :: ':' :: (renderPrim f.2 ++ (',' :: (renderFields (g :: t) ++ rbrace :: rest))) by
        simp]
      simp [parseStringBody_renderString, skipWS_cons_of_not_ws, skipWS_renderPrim,
        parsePrim_renderPrim f.2 _
          (headNotDigit_comma (renderFields (g :: t) ++ rbrace :: rest)),
        ih rest fuel (by simp) (by simp at hlen ⊢; omega),
        (by decide : ((':' : Char).isWhitespace = false)),
        (by decide : ((',' : Char).isWhitespace = false))]

theorem renderFields_head (r : RecordV) (hr : r ≠ []) :
    ∃ tail, renderFields r = '"' :: tail := by
  cases r with
  | nil => exact absurd rfl hr
  | cons f fs =>
    cases fs with
    | nil =>
      refine ⟨escapeList f.1.data ++ '"' :: ':' :: (renderPrim f.2 ++ []), ?_⟩
      rw [show renderFields [f] = renderField f from rfl,
        show renderField f = renderField f ++ [] by simp, renderField_append]
    | cons g t =>
      refine ⟨escapeList f.1.data ++
        '"' :: ':' :: (renderPrim f.2 ++ ',' :: renderFields (g :: t)), ?_⟩
      rw [show renderFields (f :: g :: t) =
          renderField f ++ ',' :: renderFields (g :: t) from rfl,
        renderField_append]

theorem renderFields_length_ge (r : RecordV) :
    r.length ≤ (renderFields r).length := by
  induction r with
  | nil => simp [renderFields]
  | cons f fs ih =>
    cases fs with
    | nil =>
      rw [show renderFields [f] = renderField f from rfl,
        show renderField f = renderField f ++ [] by simp, renderField_append]
      simp
    | cons g t =>
      rw [show renderFields (f :: g :: t) =
          renderField f ++ ',' :: renderFields (g :: t) from rfl,
        renderField_append]
      simp only [List.length_cons, List.length_append, List.length_cons]
      simp at ih ⊢
      omega

theorem parseRecordText_encodeT (r : RecordV) :
    parseRecordText (encodeT r) = some r := by
  unfold parseRecordText encodeT
  rw [show (String.mk (lbrace :: (renderFields r ++ [rbrace]))).data =
      lbrace :: (renderFields r ++ [rbrace]) from rfl,
    skipWS_cons_of_not_ws _ (by decide)]
  simp only [if_pos rfl]
  cases r with
  | nil =>
    rw [show renderFields ([] : RecordV) ++ [rbrace] = rbrace :: [] from rfl,
      skipWS_cons_of_not_ws _ (by decide)]
    simp [skipWS]
  | cons f fs =>
    obtain ⟨tail, htail⟩ := renderFields_head (f :: fs) (by simp)
    rw [htail]
    simp only [List.cons_append]
    rw [skipWS_cons_of_not_ws _ (by decide)]
    have hne : ¬(('"' : Char) = rbrace) := by decide
    simp only [hne, if_false, ite_false]
    rw [show ('"' : Char) :: (tail ++ [rbrace]) = renderFields (f :: fs) ++ rbrace :: [] by
      rw [htail]; simp]
    rw [parseFields_renderFields (f :: fs) [] _ (by simp) ?_]
    · simp [skipWS]
    · have h1 := renderFields_length_ge (f :: fs)
      have h2 : (renderFields (f :: fs) ++ rbrace :: []).length =
          (renderFields (f :: fs)).length + 1 := by simp
      simp at h1 h2 ⊢
      omega

theorem coerceKind_of_kindEq (a v : Prim) (h : kindEq a v = true) :
    coerceKind a v = some v := by
  cases a <;> cases v <;> simp [kindEq] at h ⊢ <;> rfl

theorem lookup_cons_eq {α β : Type} [BEq α] [LawfulBEq α] (p : α × β)
    (t : List (α × β)) (a : α) (h : p.1 = a) : (p :: t).lookup a = some p.2 := by
  cases p with
  | mk k v => simp_all [List.lookup]

theorem lookup_cons_ne {α β : Type} [BEq α] [LawfulBEq α] (p : α × β)
    (t : List (α × β)) (a : α) (h : ¬p.1 = a) :
    (p :: t).lookup a = t.lookup a := by
  cases p with
  | mk k v =>
    have hb : (a == k) = false := by
      simp only [beq_eq_false_iff_ne, ne_eq]
      exact fun he => h (by simp_all)
    simp [List.lookup, hb]

theorem lookup_insert_head {α β : Type} [BEq α] [LawfulBEq α]
    (k : α) (v : β) (t : List (α × β)) : ((k, v) :: t).lookup k = some v :=
  lookup_cons_eq (k, v) t k rfl

theorem mem_fst_of_lookup {α β : Type} [BEq α] [LawfulBEq α]
    (l : List (α × β)) (a : α) (b : β)
    (h : l.lookup a = some b) : a ∈ l.map Prod.fst := by
  induction l with
  | nil => simp [List.lookup] at h
  | cons p t ih =>
    by_cases hpa : p.1 = a
    · simp [hpa.symm]
    · rw [lookup_cons_ne p t a hpa] at h
      simp [ih h]

/-- The relation tying a schema to a record value `r`, with all lookups
done in the fixed key-value list `kvs`. -/
def ExtractRel (kvs : RecordV) (sch : Schema) (r : RecordV) : Prop :=
  List.Forall₂ (fun f q => q.1 = f.name ∧ kindEq f.dflt q.2 = true ∧
    kvs.lookup f.name = some q.2) sch r

theorem extractRel_cons_mono (p : String × Prim) (kvs : RecordV)
    (sch : Schema) (r : RecordV) (hnotin : p.1 ∉ kvs.map Prod.fst)
    (h : ExtractRel kvs sch r) : ExtractRel (p :: kvs) sch r := by
  refine h.imp ?_
  rintro f q ⟨h1, h2, h3⟩
  refine ⟨h1, h2, ?_⟩
  have hfn : f.name ∈ kvs.map Prod.fst := mem_fst_of_lookup _ _ _ h3
  have hne : ¬p.1 = f.name := fun he => hnotin (he ▸ hfn)
  rw [lookup_cons_ne p kvs f.name hne]
  exact h3

theorem conforms_names :
    ∀ (sch : Schema) (r : RecordV), conforms sch r →
      r.map Prod.fst = sch.map FieldSchema.name := by
  intro sch r hc
  induction hc with
  | nil => rfl
  | cons hf _ ih => simp [hf.1, ih]

theorem conforms_lookup :
    ∀ (sch : Schema) (r : RecordV), conforms sch r →
      (r.map Prod.fst).Nodup → ExtractRel r sch r := by
  intro sch r hc
  induction hc with
  | nil => intro _; exact List.Forall₂.nil
  | @cons f p sch2 r2 hf htail ih =>
    intro hnd
    rw [List.map_cons, List.nodup_cons] at hnd
    refine List.Forall₂.cons ⟨hf.1, hf.2, lookup_cons_eq p r2 f.name hf.1⟩ ?_
    exact extractRel_cons_mono p r2 sch2 r2 hnd.1 (ih hnd.2)

theorem extractFields_of_extractRel (kvs : RecordV) :
    ∀ (sch : Schema) (r : RecordV), ExtractRel kvs sch r →
      extractFields kvs sch = some r := by
  intro sch r h
  induction h with
  | nil => rfl
  | @cons f q sch2 r2 hf _ ih =>
    obtain ⟨h1, h2, h3⟩ := hf
    rw [extractFields.eq_def]
    simp only [extractField, h3, coerceKind_of_kindEq _ _ h2, ih]
    rw [← h1]

/-- Round trip of the canonical encoding: decoding the encoded form of any
record value of the type yields the value back.  Shared by the claims that
need persistence to reproduce the stored record. -/
theorem decode_encode (sch : Schema) (r : RecordV) (hc : conforms sch r)
    (hnd : (sch.map FieldSchema.name).Nodup) :
    decodeT sch (encodeT r) = some r := by
  have hnames := conforms_names sch r hc
  unfold decodeT
  rw [parseRecordText_encodeT]
  exact extractFields_of_extractRel r sch r
    (conforms_lookup sch r hc (by rw [hnames]; exact hnd))

/-! ### Properties of the elicitation loop -/

theorem kindEq_refl (v : Prim) : kindEq v v = true := by
  cases v <;> rfl

theorem coerceField_kind (dflt : Prim) (input : String) (v : Prim)
    (h : coerceField dflt input = some v) : kindEq dflt v = true := by
  cases dflt with
  | s x =>
    simp [coerceField] at h
    rw [← h]; rfl
  | i x =>
    rcases hp : parseI64 input with _ | num <;> simp [coerceField, hp] at h
    rw [← h]; rfl
  | b x =>
    by_cases h1 : lowerAscii input = "true"
    · simp [coerceField, h1] at h; rw [← h]; rfl
    · by_cases h2 : lowerAscii input = "false"
      · simp [coerceField, h1, h2] at h; rw [← h]; rfl
      · simp [coerceField, h1, h2] at h

theorem elicitFields_cons (f : FieldSchema) (rest : Schema) (con : Console) :
    elicitFields (f :: rest) con =
      ((f.name,
        match coerceField f.dflt (rustTrim (readLine con).1) with
        | some v => v
        | none => f.dflt) :: (elicitFields rest (readLine con).2).1,
       (elicitFields rest (readLine con).2).2.1,
       fieldPrompt f.name :: (elicitFields rest (readLine con).2).2.2) := rfl

theorem elicitFields_length (sch : Schema) :
    ∀ con : Console, (elicitFields sch con).1.length = sch.length := by
  induction sch with
  | nil => intro con; rfl
  | cons f rest ih => intro con; rw [elicitFields_cons]; simp [ih]

theorem readLine_fst (con : Console) : (readLine con).1 = con.getD 0 "" := by
  cases con <;> rfl

theorem readLine_snd_getD (con : Console) (i : Nat) :
    (readLine con).2.getD i "" = con.getD (i + 1) "" := by
  cases con <;> rfl

theorem elicit_get :
    ∀ (sch : Schema) (con : Console) (i : Nat) (h : i < sch.length),
      (elicitFields sch con).1.get ⟨i, by rw [elicitFields_length]; exact h⟩ =
        ((sch.get ⟨i, h⟩).name,
         match coerceField (sch.get ⟨i, h⟩).dflt
             (rustTrim (con.getD i "")) with
         | some v => v
         | none => (sch.get ⟨i, h⟩).dflt) := by
  intro sch
  induction sch with
  | nil => intro con i h; exact absurd h (by simp)
  | cons f rest ih =>
    intro con i h
    cases i with
    | zero => simp [elicitFields_cons, readLine_fst]
    | succ j =>
      have hj : j < rest.length := by simpa using h
      have := ih (readLine con).2 j hj
      simp only [elicitFields_cons, List.get_cons_succ]
      rw [this, readLine_snd_getD]

theorem elicit_conforms :
    ∀ (sch : Schema) (con : Console), conforms sch (elicitFields sch con).1 := by
  intro sch
  induction sch with
  | nil => intro con; exact List.Forall₂.nil
  | cons f rest ih =>
    intro con
    rw [elicitFields_cons]
    refine List.Forall₂.cons ⟨rfl, ?_⟩ (ih _)
    rcases hc : coerceField f.dflt (rustTrim (readLine con).1) with _ | v
    · simp [kindEq_refl]
    · simp [coerceField_kind _ _ _ hc]

/-! ### Frame lemmas: every operation leaves the identity fields intact -/

theorem read_key_ident (u : Bool) (env : List (String × String))
    (m : KeyManager) (st : SecretStore) :
    ∃ kv, (KeyManager.read_key u env m st).2 = { m with key_value := kv } := by
  unfold KeyManager.read_key
  rcases hE : (if u then env.lookup m.key_name else none) with _ | v
  · rcases hG : st.get m.system_name m.key_name with e | p
    · exact ⟨m.key_value, by simp [hE, hG]⟩
    · exact ⟨some p, by simp [hE, hG]⟩
  · exact ⟨some v, by simp [hE]⟩

theorem store_key_ident (m : KeyManager) (st : SecretStore) (value : String) :
    ∃ kv, (KeyManager.store_key m st value).2.1 = { m with key_value := kv } := by
  unfold KeyManager.store_key
  rcases hS : st.set m.system_name m.key_name value with e | st2
  · exact ⟨m.key_value, by simp [hS]⟩
  · exact ⟨some value, by simp [hS]⟩

theorem delete_key_ident (m : KeyManager) (st : SecretStore) :
    ∃ kv, (KeyManager.delete_key m st).2.1 = { m with key_value := kv } := by
  unfold KeyManager.delete_key
  rcases hS : st.del m.system_name m.key_name with e | st2
  · exact ⟨m.key_value, by simp [hS]⟩
  · exact ⟨none, by simp [hS]⟩

theorem request_key_ident (m : KeyManager) (st : SecretStore) (con : Console) :
    ∃ kv, (KeyManager.request_key m st con).2.1 = { m with key_value := kv } := by
  obtain ⟨kv, hkv⟩ := store_key_ident m st (rustTrim (readLine con).1)
  refine ⟨kv, ?_⟩
  unfold KeyManager.request_key
  rcases hS : KeyManager.store_key m st (rustTrim (readLine con).1) with ⟨r, m2, st2⟩
  rw [hS] at hkv
  simp only [] at hkv
  rcases r with e | u <;> simp [hS, hkv]

theorem read_or_request_key_ident (u : Bool) (env : List (String × String))
    (m : KeyManager) (st : SecretStore) (con : Console) :
    ∃ kv, (KeyManager.read_or_request_key u env m st con).2.1 =
      { m with key_value := kv } := by
  unfold KeyManager.read_or_request_key
  obtain ⟨kv1, hkv1⟩ := read_key_ident u env m st
  rcases hR : KeyManager.read_key u env m st with ⟨r, m2⟩
  rw [hR] at hkv1
  simp only [] at hkv1
  rcases r with e | v
  · obtain ⟨kv2, hkv2⟩ := request_key_ident m2 st con
    rcases hQ : KeyManager.request_key m2 st con with ⟨r2, m3, st3, con3, out3⟩
    rw [hQ] at hkv2
    simp only [] at hkv2
    refine ⟨kv2, ?_⟩
    subst hkv1
    simp [hR, hQ, hkv2]
  · exact ⟨m2.key_value, by simp [hR, hkv1]⟩

theorem s_read_key_ident (u : Bool) (env : List (String × String))
    (sch : Schema) (m : StructKeyManager) (st : SecretStore) :
    ∃ kv, (StructKeyManager.read_key u env sch m st).2.key_manager =
      { m.key_manager with key_value := kv } := by
  unfold StructKeyManager.read_key
  obtain ⟨kv, hkv⟩ := read_key_ident u env m.key_manager st
  rcases hR : KeyManager.read_key u env m.key_manager st with ⟨r, km⟩
  rw [hR] at hkv
  simp only [] at hkv
  rcases r with e | v
  · exact ⟨kv, by simp [hR, hkv]⟩
  · rcases hD : decodeT sch v with _ | rv
    · exact ⟨kv, by simp [hR, hD, hkv]⟩
    · exact ⟨kv, by simp [hR, hD, hkv]⟩

theorem s_store_key_ident (sch : Schema) (m : StructKeyManager)
    (st : SecretStore) (value : RecordV) :
    ∃ kv, (StructKeyManager.store_key sch m st value).2.1.key_manager =
      { m.key_manager with key_value := kv } := by
  unfold StructKeyManager.store_key
  obtain ⟨kv, hkv⟩ := store_key_ident m.key_manager st (encodeT value)
  rcases hS : KeyManager.store_key m.key_manager st (encodeT value) with ⟨r, km, st2⟩
  rw [hS] at hkv
  simp only [] at hkv
  exact ⟨kv, by simp [hS, hkv]⟩

theorem s_delete_key_ident (m : StructKeyManager) (st : SecretStore) :
    ∃ kv, (StructKeyManager.delete_key m st).2.1.key_manager =
      { m.key_manager with key_value := kv } := by
  unfold StructKeyManager.delete_key
  obtain ⟨kv, hkv⟩ := delete_key_ident m.key_manager st
  rcases hS : KeyManager.delete_key m.key_manager st with ⟨r, km, st2⟩
  rw [hS] at hkv
  simp only [] at hkv
  exact ⟨kv, by simp [hS, hkv]⟩

theorem s_request_key_ident (sch : Schema) (m : StructKeyManager)
    (st : SecretStore) (con : Console) :
    ∃ kv, (StructKeyManager.request_key sch m st con).2.1.key_manager =
      { m.key_manager with key_value := kv } := by
  unfold StructKeyManager.request_key
  obtain ⟨kv, hkv⟩ :=
    s_store_key_ident sch m st (elicitFields sch con).1
  rcases hS : StructKeyManager.store_key sch m st (elicitFields sch con).1
    with ⟨r, m2, st2⟩
  rw [hS] at hkv
  simp only [] at hkv
  rcases r with e | u <;> exact ⟨kv, by simp [hS, hkv]⟩

theorem s_read_or_request_key_ident (u : Bool) (env : List (String × String))
    (sch : Schema) (m : StructKeyManager) (st : SecretStore) (con : Console) :
    ∃ kv, (StructKeyManager.read_or_request_key u env sch m st con).2.1.key_manager =
      { m.key_manager with key_value := kv } := by
  unfold StructKeyManager.read_or_request_key
  obtain ⟨kv1, hkv1⟩ := s_read_key_ident u env sch m st
  rcases hR : StructKeyManager.read_key u env sch m st with ⟨r, m2⟩
  rw [hR] at hkv1
  simp only [] at hkv1
  rcases r with e | v
  · obtain ⟨kv2, hkv2⟩ := s_request_key_ident sch m2 st con
    rcases hQ : StructKeyManager.request_key sch m2 st con
      with ⟨r2, m3, st3, con3, out3⟩
    rw [hQ] at hkv2
    simp only [] at hkv2
    refine ⟨kv2, ?_⟩
    have hm2 : m2 = ⟨{ m.key_manager with key_value := kv1 }⟩ := by
      cases m2; simp_all
    subst hm2
    simp [hR, hQ, hkv2]
  · exact ⟨m2.key_manager.key_value, by simp [hR, hkv1]⟩

/-! ### The claims -/

/-- C6: when the override source (the process environment, with the
override feature enabled) holds a value for the key name, `read_key`
returns that value and caches it, without querying the SecretStore: the
result is the same for every store state, including a store holding a
different value for the same identity. -/
theorem c6_override_precedence (env : List (String × String)) (m : KeyManager)
    (st : SecretStore) (v : String) (h : env.lookup m.key_name = some v) :
    KeyManager.read_key true env m st =
      (.ok v, { m with key_value := some v }) := by
  unfold KeyManager.read_key
  simp [h]

/-- Witness for C6 at a concrete input: the store holds a different value
for the same identity, yet the environment value is returned and cached. -/
theorem c6_witness :
    ([("k", "v")] : List (String × String)).lookup
        (KeyManager.new "s" "k").key_name = some "v" ∧
    KeyManager.read_key true [("k", "v")] (KeyManager.new "s" "k")
        ⟨[(("s", "k"), "other")], false⟩ =
      (.ok "v", { KeyManager.new "s" "k" with key_value := some "v" }) :=
  ⟨by decide, c6_override_precedence [("k", "v")] (KeyManager.new "s" "k")
    ⟨[(("s", "k"), "other")], false⟩ "v" (by decide)⟩

/-- C7: deleting a key whose identity has no stored value fails (with the
`NoEntry` error the keyring reports for an absent credential — the case the
spec's taxonomy files under `StoreError`), rather than succeeding silently;
manager and store are left unchanged. -/
theorem c7_delete_absent_fails (m : KeyManager) (st : SecretStore)
    (hf : st.failing = false)
    (h : st.entries.lookup (m.system_name, m.key_name) = none) :
    KeyManager.delete_key m st = (.error .noEntry, m, st) := by
  unfold KeyManager.delete_key SecretStore.del
  simp [hf, h]

/-- Witness for C7 at a concrete input. -/
theorem c7_witness :
    (⟨[(("s", "o"), "x")], false⟩ : SecretStore).failing = false ∧
    (⟨[(("s", "o"), "x")], false⟩ : SecretStore).entries.lookup
      ((KeyManager.new "s" "k").system_name,
       (KeyManager.new "s" "k").key_name) = none ∧
    KeyManager.delete_key (KeyManager.new "s" "k")
        ⟨[(("s", "o"), "x")], false⟩ =
      (.error .noEntry, KeyManager.new "s" "k",
       ⟨[(("s", "o"), "x")], false⟩) :=
  ⟨rfl, by decide,
   c7_delete_absent_fails (KeyManager.new "s" "k")
     ⟨[(("s", "o"), "x")], false⟩ rfl (by decide)⟩

/-- C8: `request_key` prompts exactly once, consumes exactly one console
line, trims surrounding whitespace, stores exactly the trimmed string, and
returns that same trimmed string (so the returned value equals the value
just stored). -/
theorem c8_request_key (m : KeyManager) (st : SecretStore) (con : Console)
    (hf : st.failing = false) :
    KeyManager.request_key m st con =
      (.ok (rustTrim (readLine con).1),
       { m with key_value := some (rustTrim (readLine con).1) },
       { st with entries :=
           ((m.system_name, m.key_name), rustTrim (readLine con).1) ::
           st.entries.filter (fun e => !(e.1 == (m.system_name, m.key_name))) },
       (readLine con).2,
       [scalarPrompt m.key_name]) := by
  unfold KeyManager.request_key KeyManager.store_key SecretStore.set
  simp [hf]

/-- Witness for C8 at a concrete input: input line with surrounding
whitespace is trimmed, stored and returned. -/
theorem c8_witness :
    (⟨[], false⟩ : SecretStore).failing = false ∧
    KeyManager.request_key (KeyManager.new "s" "k") ⟨[], false⟩
        ["  hello  "] =
      (.ok "hello", { KeyManager.new "s" "k" with key_value := some "hello" },
       ⟨[(("s", "k"), "hello")], false⟩, [], [scalarPrompt "k"]) := by
  refine ⟨rfl, ?_⟩
  rw [c8_request_key (KeyManager.new "s" "k") ⟨[], false⟩ ["  hello  "] rfl]
  rfl

/-- C4: the canonical encoding used by `store_key` composed with the
decoding used by `read_key` is the identity on every value of a record
type whose fields are strings, integers or booleans; consequently a
`read_key` directly after a `store_key` yields the stored value back. -/
theorem c4_roundtrip (sch : Schema) (r : RecordV)
    (hc : conforms sch r) (hnd : (sch.map FieldSchema.name).Nodup) :
    decodeT sch (encodeT r) = some r ∧
    (∀ (m : StructKeyManager) (st : SecretStore), st.failing = false →
      (StructKeyManager.read_key false [] sch
        (StructKeyManager.store_key sch m st r).2.1
        (StructKeyManager.store_key sch m st r).2.2).1 = .ok r) := by
  refine ⟨decode_encode sch r hc hnd, ?_⟩
  intro m st hf
  unfold StructKeyManager.store_key KeyManager.store_key SecretStore.set
  unfold StructKeyManager.read_key KeyManager.read_key SecretStore.get
  simp only [hf, if_false, ite_false, Bool.false_eq_true]
  rw [lookup_insert_head]
  simp [decode_encode sch r hc hnd]

/-- Witness for C4 at a concrete record with an escaped quote in a string
field, a negative integer and a boolean. -/
theorem c4_witness :
    (conforms [⟨"a", .s ""⟩, ⟨"n", .i 0⟩, ⟨"f", .b false⟩]
        [("a", .s "x\"y"), ("n", .i (-7)), ("f", .b true)] ∧
      (([⟨"a", .s ""⟩, ⟨"n", .i 0⟩, ⟨"f", .b false⟩] : Schema).map
        FieldSchema.name).Nodup) ∧
    decodeT [⟨"a", .s ""⟩, ⟨"n", .i 0⟩, ⟨"f", .b false⟩]
        (encodeT [("a", .s "x\"y"), ("n", .i (-7)), ("f", .b true)]) =
      some [("a", .s "x\"y"), ("n", .i (-7)), ("f", .b true)] := by
  have hc : conforms [⟨"a", .s ""⟩, ⟨"n", .i 0⟩, ⟨"f", .b false⟩]
      [("a", .s "x\"y"), ("n", .i (-7)), ("f", .b true)] :=
    List.Forall₂.cons ⟨rfl, rfl⟩ (List.Forall₂.cons ⟨rfl, rfl⟩
      (List.Forall₂.cons ⟨rfl, rfl⟩ List.Forall₂.nil))
  have hnd : (([⟨"a", .s ""⟩, ⟨"n", .i 0⟩, ⟨"f", .b false⟩] : Schema).map
      FieldSchema.name).Nodup := by decide
  exact ⟨⟨hc, hnd⟩, (c4_roundtrip _ _ hc hnd).1⟩

/-- C5: with no entry in the SecretStore for the identity (and the
override feature off, the default build), `read_or_request_key` falls back
to interactive elicitation; the elicited value is returned, persisted, and
a subsequent `read_key` on the resulting state returns the same value with
no console interaction (`read_key` takes no console input at all).  Both
the scalar and the structured manager are covered. -/
theorem c5_fallback_elicits_and_persists :
    (∀ (m : KeyManager) (st : SecretStore) (l : String) (ls : Console),
      st.failing = false →
      st.entries.lookup (m.system_name, m.key_name) = none →
      KeyManager.read_or_request_key false [] m st (l :: ls) =
        (.ok (rustTrim l),
         { m with key_value := some (rustTrim l) },
         { st with entries := ((m.system_name, m.key_name), rustTrim l) ::
             st.entries.filter (fun e => !(e.1 == (m.system_name, m.key_name))) },
         ls, [notFoundNotice, scalarPrompt m.key_name]) ∧
      KeyManager.read_key false [] { m with key_value := some (rustTrim l) }
          { st with entries := ((m.system_name, m.key_name), rustTrim l) ::
              st.entries.filter (fun e => !(e.1 == (m.system_name, m.key_name))) } =
        (.ok (rustTrim l), { m with key_value := some (rustTrim l) })) ∧
    (∀ (sch : Schema) (sm : StructKeyManager) (st : SecretStore) (con : Console),
      (sch.map FieldSchema.name).Nodup →
      st.failing = false →
      st.entries.lookup (sm.key_manager.system_name, sm.key_manager.key_name) = none →
      StructKeyManager.read_or_request_key false [] sch sm st con =
        (.ok (elicitFields sch con).1,
         ⟨{ sm.key_manager with
            key_value := some (encodeT (elicitFields sch con).1) }⟩,
         { st with entries :=
             ((sm.key_manager.system_name, sm.key_manager.key_name),
              encodeT (elicitFields sch con).1) ::
             st.entries.filter (fun e =>
               !(e.1 == (sm.key_manager.system_name, sm.key_manager.key_name))) },
         (elicitFields sch con).2.1,
         notFoundNotice :: (elicitFields sch con).2.2) ∧
      (StructKeyManager.read_key false [] sch
          ⟨{ sm.key_manager with
             key_value := some (encodeT (elicitFields sch con).1) }⟩
          { st with entries :=
              ((sm.key_manager.system_name, sm.key_manager.key_name),
               encodeT (elicitFields sch con).1) ::
              st.entries.filter (fun e =>
                !(e.1 == (sm.key_manager.system_name, sm.key_manager.key_name))) }).1 =
        .ok (elicitFields sch con).1) := by
  constructor
  · intro m st l ls hf hl
    constructor
    · unfold KeyManager.read_or_request_key KeyManager.read_key SecretStore.get
        KeyManager.request_key KeyManager.store_key SecretStore.set
      simp [hf, hl, readLine]
    · unfold KeyManager.read_key SecretStore.get
      simp only [hf, if_false, ite_false, Bool.false_eq_true]
      rw [lookup_insert_head]
  · intro sch sm st con hnd hf hl
    constructor
    · unfold StructKeyManager.read_or_request_key StructKeyManager.read_key
        StructKeyManager.request_key StructKeyManager.store_key
        KeyManager.read_key KeyManager.store_key SecretStore.get SecretStore.set
      simp [hf, hl]
    · unfold StructKeyManager.read_key KeyManager.read_key SecretStore.get
      simp only [hf, if_false, ite_false, Bool.false_eq_true]
      rw [lookup_insert_head]
      simp [decode_encode sch (elicitFields sch con).1
        (elicit_conforms sch con) hnd]

/-- Witness for C5 at concrete inputs: a scalar key elicited from input
`"  tok  "`, and a one-boolean-field record elicited from input `"TRUE"`. -/
theorem c5_witness :
    ((⟨[], false⟩ : SecretStore).failing = false ∧
      (⟨[], false⟩ : SecretStore).entries.lookup
        ((KeyManager.new "s" "k").system_name,
         (KeyManager.new "s" "k").key_name) = none ∧
      KeyManager.read_or_request_key false [] (KeyManager.new "s" "k")
          ⟨[], false⟩ ["  tok  "] =
        (.ok "tok", { KeyManager.new "s" "k" with key_value := some "tok" },
         ⟨[(("s", "k"), "tok")], false⟩, [],
         [notFoundNotice, scalarPrompt "k"])) ∧
    ((([⟨"flag", .b false⟩] : Schema).map FieldSchema.name).Nodup ∧
      StructKeyManager.read_or_request_key false [] [⟨"flag", .b false⟩]
          (StructKeyManager.new "s2" "k2") ⟨[], false⟩ ["TRUE"] =
        (.ok [("flag", .b true)],
         ⟨{ system_name := "s2", key_name := "k2",
            key_value := some (encodeT [("flag", .b true)]) }⟩,
         ⟨[(("s2", "k2"), encodeT [("flag", .b true)])], false⟩,
         [], [notFoundNotice, fieldPrompt "flag"])) := by
  constructor
  · refine ⟨rfl, by decide, ?_⟩
    rw [((c5_fallback_elicits_and_persists.1 (KeyManager.new "s" "k")
      ⟨[], false⟩ "  tok  " [] rfl (by decide)).1)]
    rfl
  · refine ⟨by decide, ?_⟩
    rw [((c5_fallback_elicits_and_persists.2 [⟨"flag", .b false⟩]
      (StructKeyManager.new "s2" "k2") ⟨[], false⟩ ["TRUE"] (by decide) rfl
      (by decide)).1)]
    rfl

/-- Modelled from the spec: the iteration order of the serialized field
map during elicitation is fixed by the serde_json map-ordering feature
selected in the build manifest, which is not among the sources.  The spec
settles it: section 4.2 step 2 prompts "in the order produced by encoding",
section 6 says "field order in the encoded form determines prompt order",
and the section 8 scenario's record type T has fields name (string,
default empty) then age (integer, default 0) in that order. -/
def profileSchema : Schema := [⟨"name", .s ""⟩, ⟨"age", .i 0⟩]

/-- C2: the spec's scenario: identity (acct, profile), record type
name/age, empty store, override off, console input "Grace" then "30";
`read_or_request_key` returns the record name="Grace", age=30 having
consumed both lines, and a subsequent `read_key` on the resulting state
returns the same record (no console is consumed: `read_key` takes none). -/
theorem c2_scenario :
    StructKeyManager.read_or_request_key false [] profileSchema
        (StructKeyManager.new "acct" "profile") ⟨[], false⟩ ["Grace", "30"] =
      (.ok [("name", .s "Grace"), ("age", .i 30)],
       ⟨{ system_name := "acct", key_name := "profile",
          key_value := some (encodeT [("name", .s "Grace"), ("age", .i 30)]) }⟩,
       ⟨[(("acct", "profile"),
          encodeT [("name", .s "Grace"), ("age", .i 30)])], false⟩,
       [], [notFoundNotice, fieldPrompt "name", fieldPrompt "age"]) ∧
    StructKeyManager.read_key false [] profileSchema
        ⟨{ system_name := "acct", key_name := "profile",
           key_value := some (encodeT [("name", .s "Grace"), ("age", .i 30)]) }⟩
        ⟨[(("acct", "profile"),
           encodeT [("name", .s "Grace"), ("age", .i 30)])], false⟩ =
      (.ok [("name", .s "Grace"), ("age", .i 30)],
       ⟨{ system_name := "acct", key_name := "profile",
          key_value := some (encodeT [("name", .s "Grace"), ("age", .i 30)]) }⟩) := by
  constructor <;> rfl

/-- C1, evaluated at the failing input: a single numeric field `age`
(default 0) with console lines "abc" then "5".  The loop's `continue`
prints one prompt, consumes only "abc", leaves `age` at the default 0,
and the elicitation completes at once, storing and returning the record
with the default — it does not re-prompt the same field, and "5" is never
read.  This contradicts the claimed re-prompt-until-valid behaviour (and
the source's own comment next to `continue`). -/
theorem c1_continue_advances :
    StructKeyManager.request_key [⟨"age", .i 0⟩]
        (StructKeyManager.new "acct" "prof") ⟨[], false⟩ ["abc", "5"] =
      (.ok [("age", .i 0)],
       ⟨{ system_name := "acct", key_name := "prof",
          key_value := some (encodeT [("age", .i 0)]) }⟩,
       ⟨[(("acct", "prof"), encodeT [("age", .i 0)])], false⟩,
       ["5"], [fieldPrompt "age"]) := by rfl

/-- C9: whenever the console input for a numeric or boolean field fails
coercion, the loop moves on to the next field and the record finally
stored and returned carries the default instance's value for that field. -/
theorem c9_failed_coercion_keeps_default (sch : Schema)
    (m : StructKeyManager) (st : SecretStore) (con : Console) (i : Nat)
    (hi : i < sch.length)
    (hfail : coerceField (sch.get ⟨i, hi⟩).dflt
      (rustTrim (con.getD i "")) = none)
    (hf : st.failing = false) :
    (elicitFields sch con).1.get
        ⟨i, by rw [elicitFields_length]; exact hi⟩ =
      ((sch.get ⟨i, hi⟩).name, (sch.get ⟨i, hi⟩).dflt) ∧
    StructKeyManager.request_key sch m st con =
      (.ok (elicitFields sch con).1,
       ⟨{ m.key_manager with
          key_value := some (encodeT (elicitFields sch con).1) }⟩,
       { st with entries :=
           ((m.key_manager.system_name, m.key_manager.key_name),
            encodeT (elicitFields sch con).1) ::
           st.entries.filter (fun e =>
             !(e.1 == (m.key_manager.system_name, m.key_manager.key_name))) },
       (elicitFields sch con).2.1, (elicitFields sch con).2.2) := by
  constructor
  · rw [elicit_get sch con i hi, hfail]
  · unfold StructKeyManager.request_key StructKeyManager.store_key
      KeyManager.store_key SecretStore.set
    simp [hf]

/-- Witness for C9 at a concrete input: boolean field `flag` given the
non-coercible input "yes" ends up with its default `false` in the record
that is stored and returned. -/
theorem c9_witness :
    coerceField (([⟨"flag", .b false⟩] : Schema).get ⟨0, by decide⟩).dflt
        (rustTrim ((["yes"] : Console).getD 0 "")) = none ∧
    (⟨[], false⟩ : SecretStore).failing = false ∧
    StructKeyManager.request_key [⟨"flag", .b false⟩]
        (StructKeyManager.new "s3" "k3") ⟨[], false⟩ ["yes"] =
      (.ok [("flag", .b false)],
       ⟨{ system_name := "s3", key_name := "k3",
          key_value := some (encodeT [("flag", .b false)]) }⟩,
       ⟨[(("s3", "k3"), encodeT [("flag", .b false)])], false⟩,
       [], [fieldPrompt "flag"]) := by
  refine ⟨by decide, rfl, ?_⟩
  rw [(c9_failed_coercion_keeps_default [⟨"flag", .b false⟩]
    (StructKeyManager.new "s3" "k3") ⟨[], false⟩ ["yes"] 0 (by decide)
    (by decide) rfl).2]
  rfl

/-- C3, refuted at a concrete input: with stored text "notjson" (which
does not decode into the one-string-field record type), `read_key` fails
with the `PlatformFailure` variant — the same `keyring::Error` variant a
SecretStore platform failure produces — so the two cannot be told apart by
the variant of the returned error, contradicting the claimed
DecodeError/StoreError distinction. -/
theorem c3_counterexample :
    decodeT [⟨"n", .s ""⟩] "notjson" = none ∧
    (StructKeyManager.read_key false [] [⟨"n", .s ""⟩]
        (StructKeyManager.new "svc" "k")
        ⟨[(("svc", "k"), "notjson")], false⟩).1 =
      .error (.platformFailure serdeErrMsg) ∧
    (StructKeyManager.read_key false [] [⟨"n", .s ""⟩]
        (StructKeyManager.new "svc" "k") ⟨[], true⟩).1 =
      .error (.platformFailure "platform failure") ∧
    (KError.platformFailure serdeErrMsg).isPlatformFailure = true ∧
    (KError.platformFailure "platform failure").isPlatformFailure = true := by
  refine ⟨by decide, by rfl, by rfl, rfl, rfl⟩

/-- C3 amended: a decode failure is reported by wrapping the serde error
in `PlatformFailure` — the same variant that carries SecretStore platform
failures — so the variant of the returned error does not distinguish
corrupt stored data from a store failure (only `NoEntry` is distinct). -/
theorem c3_decode_error_same_variant :
    (∀ (sch : Schema) (m : StructKeyManager) (st : SecretStore) (t : String),
      st.failing = false →
      st.entries.lookup (m.key_manager.system_name, m.key_manager.key_name) =
        some t →
      decodeT sch t = none →
      (StructKeyManager.read_key false [] sch m st).1 =
        .error (.platformFailure serdeErrMsg)) ∧
    (∀ (sch : Schema) (m : StructKeyManager) (st : SecretStore),
      st.failing = true →
      (StructKeyManager.read_key false [] sch m st).1 =
        .error (.platformFailure "platform failure")) := by
  constructor
  · intro sch m st t hf hl hd
    unfold StructKeyManager.read_key KeyManager.read_key SecretStore.get
    simp [hf, hl, hd]
  · intro sch m st hf
    unfold StructKeyManager.read_key KeyManager.read_key SecretStore.get
    simp [hf]

/-- Witness for the amended C3 at a concrete input. -/
theorem c3_witness :
    (⟨[(("w", "q"), "[]")], false⟩ : SecretStore).failing = false ∧
    (⟨[(("w", "q"), "[]")], false⟩ : SecretStore).entries.lookup
      ((StructKeyManager.new "w" "q").key_manager.system_name,
       (StructKeyManager.new "w" "q").key_manager.key_name) = some "[]" ∧
    decodeT [⟨"n", .i 0⟩] "[]" = none ∧
    (StructKeyManager.read_key false [] [⟨"n", .i 0⟩]
        (StructKeyManager.new "w" "q") ⟨[(("w", "q"), "[]")], false⟩).1 =
      .error (.platformFailure serdeErrMsg) :=
  ⟨rfl, by decide, by decide,
   c3_decode_error_same_variant.1 [⟨"n", .i 0⟩] (StructKeyManager.new "w" "q")
     ⟨[(("w", "q"), "[]")], false⟩ "[]" rfl (by decide) (by decide)⟩

/-- C10: every operation of both managers leaves the identity fields
`system_name` and `key_name` unchanged, whether it succeeds or fails: the
resulting manager always equals the original with only `key_value`
replaced. -/
theorem c10_identity_frame :
    (∀ (u : Bool) (env : List (String × String)) (m : KeyManager)
      (st : SecretStore),
      ∃ kv, (KeyManager.read_key u env m st).2 = { m with key_value := kv }) ∧
    (∀ (m : KeyManager) (st : SecretStore) (value : String),
      ∃ kv, (KeyManager.store_key m st value).2.1 = { m with key_value := kv }) ∧
    (∀ (m : KeyManager) (st : SecretStore),
      ∃ kv, (KeyManager.delete_key m st).2.1 = { m with key_value := kv }) ∧
    (∀ (m : KeyManager) (st : SecretStore) (con : Console),
      ∃ kv, (KeyManager.request_key m st con).2.1 = { m with key_value := kv }) ∧
    (∀ (u : Bool) (env : List (String × String)) (m : KeyManager)
      (st : SecretStore) (con : Console),
      ∃ kv, (KeyManager.read_or_request_key u env m st con).2.1 =
        { m with key_value := kv }) ∧
    (∀ (u : Bool) (env : List (String × String)) (sch : Schema)
      (m : StructKeyManager) (st : SecretStore),
      ∃ kv, (StructKeyManager.read_key u env sch m st).2.key_manager =
        { m.key_manager with key_value := kv }) ∧
    (∀ (sch : Schema) (m : StructKeyManager) (st : SecretStore)
      (value : RecordV),
      ∃ kv, (StructKeyManager.store_key sch m st value).2.1.key_manager =
        { m.key_manager with key_value := kv }) ∧
    (∀ (m : StructKeyManager) (st : SecretStore),
      ∃ kv, (StructKeyManager.delete_key m st).2.1.key_manager =
        { m.key_manager with key_value := kv }) ∧
    (∀ (sch : Schema) (m : StructKeyManager) (st : SecretStore)
      (con : Console),
      ∃ kv, (StructKeyManager.request_key sch m st con).2.1.key_manager =
        { m.key_manager with key_value := kv }) ∧
    (∀ (u : Bool) (env : List (String × String)) (sch : Schema)
      (m : StructKeyManager) (st : SecretStore) (con : Console),
      ∃ kv, (StructKeyManager.read_or_request_key u env sch m st con).2.1.key_manager =
        { m.key_manager with key_value := kv }) :=
  ⟨read_key_ident, store_key_ident, delete_key_ident, request_key_ident,
   read_or_request_key_ident, s_read_key_ident, s_store_key_ident,
   s_delete_key_ident, s_request_key_ident, s_read_or_request_key_ident⟩

end KeyVaulter
